import Mathlib

/-!
Shallow embedding of the USB meter dashboard (`3usb_meter.py`) and its report
generator (`reporter.py`).  Floating-point values are modelled as exact
rationals (`ℚ`); the floating-point NaN sentinel is modelled as `none` in
`Option ℚ`, with `some q` standing for an ordinary finite value.
-/

namespace USBMeter

/-- Little-endian byte decoding, `int.from_bytes(bs, 'little')`. -/
def leBytes (bs : List ℕ) : ℕ :=
  bs.foldr (fun b acc => b + 256 * acc) 0

/-- Mutable session accumulators of `USBMeterReader`:
`self.cumulative_mAh` and `self.last_timestamp`. -/
structure SessionState where
  cumulative_mAh : ℚ
  last_timestamp : ℚ
deriving Repr, DecidableEq, Inhabited

/-- The capacity-integration step performed on each accepted sample
(`3usb_meter.py` lines 144–147):
`delta_h = (now - last_timestamp) / 3600.0`;
`cumulative_mAh += current * 1000 * delta_h`; `last_timestamp = now`. -/
def integrateStep (st : SessionState) (current now : ℚ) : SessionState :=
  { cumulative_mAh := st.cumulative_mAh + current * 1000 * ((now - st.last_timestamp) / 3600),
    last_timestamp := now }

/-- Folding `integrateStep` over a list of sample times at constant current. -/
def integrateAll (st : SessionState) (current : ℚ) (times : List ℚ) : SessionState :=
  times.foldl (fun s t => integrateStep s current t) st

/-- A decoded telemetry sample, the dict emitted by `USBMeterReader.poll`. -/
structure Sample where
  voltage : ℚ
  current : ℚ
  power : ℚ
  temperature : Option ℚ
  dp : ℚ
  dn : ℚ
  mah : ℚ
deriving Repr, DecidableEq, Inhabited

/-- Temperature decoding (`3usb_meter.py` line 142):
`temp_raw / 10 if 0 < temp_raw < 1000 else float('nan')`. -/
def decodeTemp (temp_raw : ℕ) : Option ℚ :=
  if 0 < temp_raw ∧ temp_raw < 1000 then some ((temp_raw : ℚ) / 10) else none

/-- The packet-decoding body of `USBMeterReader.poll` (`3usb_meter.py`
lines 129–161): validate the 2-byte header, extract the little-endian
fields at their fixed offsets, convert to physical units, run the
capacity-integration step, and emit a sample; a packet whose header does
not match is discarded and the state is returned unchanged. -/
def poll (st : SessionState) (data : List ℕ) (now : ℚ) : SessionState × Option Sample :=
  if data.getD 0 0 = 0xAA ∧ data.getD 1 0 = 0x04 then
    let voltage_uV := leBytes ((data.drop 2).take 4)
    let current_uA := leBytes ((data.drop 6).take 4)
    let dp_mV := leBytes ((data.drop 10).take 2)
    let dn_mV := leBytes ((data.drop 12).take 2)
    let temp_raw := leBytes ((data.drop 15).take 2)
    let voltage : ℚ := (voltage_uV : ℚ) / 100000
    let current : ℚ := (current_uA : ℚ) / 100000
    let power := voltage * current
    let st2 := integrateStep st current now
    (st2, some { voltage := voltage, current := current, power := power,
                 temperature := decodeTemp temp_raw,
                 dp := (dp_mV : ℚ) / 1000, dn := (dn_mV : ℚ) / 1000,
                 mah := st2.cumulative_mAh })
  else (st, none)

/-- Two-decimal formatting of the elapsed timestamp in the CSV row
(the value written by `f"{elapsed_time:.2f}"`). -/
def fmt2 (x : ℚ) : ℚ := (round (x * 100) : ℤ) / 100

/-- The CSV row written for an accepted sample (`3usb_meter.py` line 160). -/
def sampleRow (elapsed : ℚ) (smp : Sample) : List (Option ℚ) :=
  [some (fmt2 elapsed), some smp.voltage, some smp.current, some smp.power,
   smp.temperature, some smp.dp, some smp.dn, some smp.mah]

/-- One full poll step including the CSV log append: the row is written
exactly when a sample is emitted. -/
def pollLog (st : SessionState) (log : List (List (Option ℚ))) (startTime : ℚ)
    (data : List ℕ) (now : ℚ) :
    SessionState × List (List (Option ℚ)) × Option Sample :=
  match poll st data now with
  | (st2, some smp) => (st2, log ++ [sampleRow (now - startTime) smp], some smp)
  | (st2, none) => (st2, log, none)

/-- The CSV header row written by `USBMeterReader.init_logging`. -/
def csvHeader : List String :=
  ["Timestamp (s)", "Voltage (V)", "Current (A)", "Power (W)",
   "Temperature (C)", "DP (V)", "DN (V)", "mAh"]

/-- A session CSV file: the fixed header plus one row per accepted sample. -/
structure CSVFile where
  header : List String
  rows : List (List (Option ℚ))
deriving Repr, DecidableEq, Inhabited

/-- The CSV file produced by the logger for a session of accepted samples,
each paired with its elapsed time. -/
def writeLog (samples : List (ℚ × Sample)) : CSVFile :=
  { header := csvHeader, rows := samples.map (fun p => sampleRow p.1 p.2) }

/-- One column as re-read by `reporter.py` via `csv.DictReader` and `float`:
for the header name at position `j`, the list over all rows of the value in
field `j`. -/
def readColumn (file : CSVFile) (j : ℕ) : List (Option ℚ) :=
  file.rows.map (fun r => r.getD j none)

/-- All columns keyed by header name, as built by the `columns.setdefault`
loop of `reporter.py` (lines 29–34). -/
def readColumns (file : CSVFile) : List (String × List (Option ℚ)) :=
  (List.range file.header.length).map (fun j => (file.header.getD j "", readColumn file j))

/-- One display-buffer update of `PlotterWindow.update_plots`
(`3usb_meter.py` lines 259–262): `buf.append((timestamp, value))` followed by
`if len(buf) > 1800: buf.pop(0)`. -/
def updateBuffer (buf : List (ℚ × ℚ)) (entry : ℚ × ℚ) : List (ℚ × ℚ) :=
  let b := buf ++ [entry]
  if b.length > 1800 then b.drop 1 else b

/-- The smoothing computation of `PlotterWindow.update_plots`
(`3usb_meter.py` lines 271–279): when `smooth_window > 1` and the buffer
holds at least `smooth_window` values, each output index `i` is
`sum(ydata[max(0, i - W + 1) : i + 1]) / (i - start + 1)`; otherwise the
smoothed output is cleared (empty). -/
def smooth (W : ℕ) (ydata : List ℚ) : List ℚ :=
  if W > 1 ∧ ydata.length ≥ W then
    (List.range ydata.length).map (fun i =>
      let start := i + 1 - W
      (((ydata.drop start).take (i + 1 - start)).sum) / ((i - start + 1 : ℕ) : ℚ))
  else []

/-- Mean of the trailing `min (i+1) W` values of `ydata` ending at index `i`
(the causal simple moving average described by the specification). -/
def trailingMean (W : ℕ) (ydata : List ℚ) (i : ℕ) : ℚ :=
  let k := min (i + 1) W
  (((ydata.take (i + 1)).drop (i + 1 - k)).sum) / (k : ℚ)

/-! ## Report generator (`reporter.py`) -/

/-- The columnar float arrays extracted by `reporter.py` (lines 37–42);
temperature may carry NaN cells. -/
structure Columns where
  timestamp : List ℚ
  voltage : List ℚ
  current : List ℚ
  power : List ℚ
  temperature : List (Option ℚ)
  mAh : List ℚ
deriving Repr, DecidableEq, Inhabited

/-- Start-index detection (`reporter.py` line 45): the first index `i` of
the voltage column with `voltage[i] > 0.1 and current[i] > 0.01`; `none`
when no such index exists (the `next(...)` call raises and the run fails). -/
def startIndex (cols : Columns) : Option ℕ :=
  (List.range cols.voltage.length).find? (fun i =>
    decide ((1 : ℚ) / 10 < cols.voltage.getD i 0) &&
    decide ((1 : ℚ) / 100 < cols.current.getD i 0))

/-- Model of `np.mean` on a NaN-free float list: sum divided by length. -/
def qMean (l : List ℚ) : ℚ := l.sum / (l.length : ℚ)

/-- Float summation with NaN propagation: the sum is NaN as soon as one
summand is NaN. -/
def nanSum : List (Option ℚ) → Option ℚ
  | [] => some 0
  | x :: xs => Option.bind x (fun a => (nanSum xs).map (fun b => a + b))

/-- Model of `np.mean` on a float list that may hold NaN cells: NaN when the list is
empty or any cell is NaN, the exact arithmetic mean otherwise. -/
def nanMean (l : List (Option ℚ)) : Option ℚ :=
  if l.isEmpty then none else (nanSum l).map (fun s => s / (l.length : ℚ))

/-- Model of `np.max` on a nonempty float list. -/
def qMax (l : List ℚ) : ℚ := l.foldl max (l.headD 0)

/-- Model of `np.min` on a nonempty float list. -/
def qMin (l : List ℚ) : ℚ := l.foldl min (l.headD 0)

/-- The summary statistics block of the report (`reporter.py` lines 48–67). -/
structure Report where
  start_voltage : ℚ
  end_voltage : ℚ
  start_current : ℚ
  end_current : ℚ
  start_temp : Option ℚ
  end_temp : Option ℚ
  total_duration : ℚ
  total_mAh : ℚ
  avg_voltage : ℚ
  avg_current : ℚ
  avg_power : ℚ
  avg_temp : Option ℚ
  max_current : ℚ
  min_current : ℚ
  max_power : ℚ
  min_power : ℚ
deriving Repr, DecidableEq, Inhabited

/-- The summary computation of `reporter.py` (lines 45–67): `none` when no
start index qualifies (the run fails and no report is produced); otherwise
the statistics over rows `start_index..end`. -/
def makeReport (cols : Columns) : Option Report :=
  match startIndex cols with
  | none => none
  | some k => some
    { start_voltage := cols.voltage.getD k 0,
      end_voltage := cols.voltage.getLastD 0,
      start_current := cols.current.getD k 0,
      end_current := cols.current.getLastD 0,
      start_temp := cols.temperature.getD k none,
      end_temp := cols.temperature.getLastD none,
      total_duration := cols.timestamp.getLastD 0 - cols.timestamp.getD k 0,
      total_mAh := cols.mAh.getLastD 0 - cols.mAh.getD k 0,
      avg_voltage := qMean (cols.voltage.drop k),
      avg_current := qMean (cols.current.drop k),
      avg_power := qMean (cols.power.drop k),
      avg_temp := nanMean (cols.temperature.drop k),
      max_current := qMax (cols.current.drop k),
      min_current := qMin (cols.current.drop k),
      max_power := qMax (cols.power.drop k),
      min_power := qMin (cols.power.drop k) }

/-! ## Theorems -/

/-- C1: for every display channel, whenever the selected smoothing window `W`
is one of `{2, 4, 8, 16}` and the channel's buffer holds at least `W` entries,
the smoothed series has the same length as the buffer and its value at each
index `i` equals the arithmetic mean of the trailing `min (i+1) W` raw values
ending at `i`; when `W ≤ 1` or the buffer holds fewer than `W` entries, the
smoothed series is empty. -/
theorem C1_smoothing_causal_sma (W : ℕ) (ydata : List ℚ) :
    ((W = 2 ∨ W = 4 ∨ W = 8 ∨ W = 16) → W ≤ ydata.length →
      (smooth W ydata).length = ydata.length ∧
      ∀ i, i < ydata.length → (smooth W ydata).getD i 0 = trailingMean W ydata i) ∧
    (W ≤ 1 ∨ ydata.length < W → smooth W ydata = []) := by
  constructor
  · intro hW hlen
    have hW1 : 1 < W := by rcases hW with h | h | h | h <;> omega
    have hcond : W > 1 ∧ ydata.length ≥ W := ⟨hW1, hlen⟩
    rw [smooth, if_pos hcond]
    constructor
    · simp
    · intro i hi
      rw [List.getD_eq_getElem?_getD, List.getElem?_map,
        List.getElem?_range (by simpa using hi), Option.map_some', Option.getD_some]
      show (((ydata.drop (i + 1 - W)).take (i + 1 - (i + 1 - W))).sum) /
          ((i - (i + 1 - W) + 1 : ℕ) : ℚ) = trailingMean W ydata i
      rw [trailingMean]
      have h1 : i + 1 - (i + 1 - W) = min (i + 1) W := by omega
      have h2 : i + 1 - min (i + 1) W = i + 1 - W := by omega
      have h3 : i - (i + 1 - W) + 1 = min (i + 1) W := by omega
      rw [h1, h2, h3, List.take_drop]
      have h4 : (i + 1 - W) + min (i + 1) W = i + 1 := by omega
      rw [h4]
  · intro h
    rw [smooth, if_neg (by omega)]

/-- Witness for C1 at `W = 4` on a concrete five-entry buffer. -/
theorem C1_smoothing_causal_sma_witness :
    (smooth 4 ([1, 2, 3, 4, 5] : List ℚ)).getD 2 0
      = trailingMean 4 ([1, 2, 3, 4, 5] : List ℚ) 2 :=
  ((C1_smoothing_causal_sma 4 [1, 2, 3, 4, 5]).1 (by norm_num) (by norm_num)).2 2 (by norm_num)

/-- C2 counterexample: with window `W = 1` on the one-entry buffer `[0]`,
the code produces an empty smoothed series, not the raw series. -/
theorem C2_w1_counterexample : ¬ (smooth 1 ([0] : List ℚ) = [0]) := by
  rw [smooth, if_neg (by omega)]
  simp

/-- C2 (amended): for every buffer contents, the smoothed series computed
with window `W = 1` is empty (smoothing output is suppressed), so it equals
the raw series only for the empty buffer. -/
theorem C2_w1_suppressed (ydata : List ℚ) : smooth 1 ydata = [] := by
  rw [smooth, if_neg (by omega)]

/-- Helper for C3: folding the integration step at constant current
telescopes to the total elapsed time. -/
theorem integrateAll_cumulative (I : ℚ) (times : List ℚ) : ∀ st : SessionState,
    (integrateAll st I times).cumulative_mAh =
      st.cumulative_mAh +
        I * 1000 * (((integrateAll st I times).last_timestamp - st.last_timestamp) / 3600) := by
  induction times with
  | nil => intro st; simp [integrateAll]
  | cons t ts ih =>
    intro st
    have step : integrateAll st I (t :: ts) = integrateAll (integrateStep st I t) I ts := rfl
    rw [step, ih (integrateStep st I t)]
    show (integrateStep st I t).cumulative_mAh + _ = _
    rw [integrateStep]
    ring_nf

/-- C3: on each accepted sample the session's `cumulative_mAh` increases by
exactly `current × 1000 × ((now − last_sample_time) / 3600)` and
`last_sample_time` becomes `now`; consequently, over any run of samples at
constant current `I`, the accumulated value equals
`I × 1000 × (T / 3600)` exactly, where `T` is the total elapsed time. -/
theorem C3_capacity_integration (st : SessionState) (I : ℚ) (times : List ℚ) :
    (∀ now, (integrateStep st I now).cumulative_mAh
        = st.cumulative_mAh + I * 1000 * ((now - st.last_timestamp) / 3600) ∧
      (integrateStep st I now).last_timestamp = now) ∧
    (integrateAll st I times).cumulative_mAh
      = st.cumulative_mAh +
          I * 1000 * (((integrateAll st I times).last_timestamp - st.last_timestamp) / 3600) :=
  ⟨fun _ => ⟨rfl, rfl⟩, integrateAll_cumulative I times st⟩

/-- C4: starting from a buffer within the 1800-entry bound, an update keeps
the buffer within the bound; when the append would exceed 1800, exactly the
oldest entry is removed and the relative order of the rest is unchanged, and
otherwise the buffer is just the old one with the new entry appended. -/
theorem C4_buffer_fifo (buf : List (ℚ × ℚ)) (e : ℚ × ℚ) (h : buf.length ≤ 1800) :
    (updateBuffer buf e).length ≤ 1800 ∧
    (buf.length + 1 > 1800 → updateBuffer buf e = buf.drop 1 ++ [e]) ∧
    (buf.length + 1 ≤ 1800 → updateBuffer buf e = buf ++ [e]) := by
  rw [updateBuffer]
  by_cases hc : (buf ++ [e]).length > 1800
  · rw [if_pos hc]
    simp only [List.length_append, List.length_singleton] at hc
    have hbuf : buf.length = 1800 := by omega
    have hdrop : (buf ++ [e]).drop 1 = buf.drop 1 ++ [e] :=
      List.drop_append_of_le_length (by omega)
    refine ⟨?_, fun _ => hdrop, fun hle => by omega⟩
    rw [hdrop]
    simp [List.length_drop, hbuf]
  · rw [if_neg hc]
    simp only [List.length_append, List.length_singleton] at hc
    exact ⟨by simp; omega, fun hgt => by omega, fun _ => rfl⟩

/-- Witness for C4 on a concrete full buffer of 1800 entries. -/
theorem C4_buffer_fifo_witness :
    (updateBuffer (List.replicate 1800 ((0 : ℚ), (0 : ℚ))) (1, 1)).length ≤ 1800 ∧
    ((List.replicate 1800 ((0 : ℚ), (0 : ℚ))).length + 1 > 1800 →
      updateBuffer (List.replicate 1800 ((0 : ℚ), (0 : ℚ))) (1, 1)
        = (List.replicate 1800 ((0 : ℚ), (0 : ℚ))).drop 1 ++ [(1, 1)]) ∧
    ((List.replicate 1800 ((0 : ℚ), (0 : ℚ))).length + 1 ≤ 1800 →
      updateBuffer (List.replicate 1800 ((0 : ℚ), (0 : ℚ))) (1, 1)
        = List.replicate 1800 ((0 : ℚ), (0 : ℚ)) ++ [(1, 1)]) :=
  C4_buffer_fifo _ _ (by rw [List.length_replicate])

/-- C5: for a 64-byte packet, a sample is emitted and a CSV row appended only
when byte 0 is the marker `0xAA` and byte 1 is the data subtype `0x04`; a
packet with any other leading bytes is silently discarded, leaving the
session state and the log unchanged and emitting nothing. -/
theorem C5_header_validation (st : SessionState) (log : List (List (Option ℚ)))
    (startTime : ℚ) (data : List ℕ) (now : ℚ) (_hlen : data.length = 64) :
    (¬ (data.getD 0 0 = 0xAA ∧ data.getD 1 0 = 0x04) →
      pollLog st log startTime data now = (st, log, none)) ∧
    ((pollLog st log startTime data now).2.2.isSome ∨
        (pollLog st log startTime data now).2.1 ≠ log →
      data.getD 0 0 = 0xAA ∧ data.getD 1 0 = 0x04) := by
  by_cases hv : data.getD 0 0 = 0xAA ∧ data.getD 1 0 = 0x04
  · exact ⟨fun h => absurd hv h, fun _ => hv⟩
  · have hpoll : poll st data now = (st, none) := by rw [poll, if_neg hv]
    have hlog : pollLog st log startTime data now = (st, log, none) := by
      rw [pollLog, hpoll]
    refine ⟨fun _ => hlog, fun h => ?_⟩
    rw [hlog] at h
    simp at h

/-- Witness for C5 on a concrete all-zero 64-byte packet. -/
theorem C5_header_validation_witness :
    (¬ ((List.replicate 64 0).getD 0 0 = 0xAA ∧ (List.replicate 64 0).getD 1 0 = 0x04) →
      pollLog ⟨0, 0⟩ [] 0 (List.replicate 64 0) 0 = (⟨0, 0⟩, [], none)) ∧
    ((pollLog ⟨0, 0⟩ [] 0 (List.replicate 64 0) 0).2.2.isSome ∨
        (pollLog ⟨0, 0⟩ [] 0 (List.replicate 64 0) 0).2.1 ≠ [] →
      (List.replicate 64 0).getD 0 0 = 0xAA ∧ (List.replicate 64 0).getD 1 0 = 0x04) :=
  C5_header_validation ⟨0, 0⟩ [] 0 (List.replicate 64 0) 0 (by simp)

/-- C6: for every accepted packet, the decoded temperature is `raw / 10`
when the raw little-endian 16-bit field satisfies `0 < raw < 1000` and NaN
(modelled `none`) otherwise; decoding is total, so an out-of-range raw
temperature never raises an error. -/
theorem C6_temperature_decode (st : SessionState) (data : List ℕ) (now : ℚ)
    (_hlen : data.length = 64)
    (hv : data.getD 0 0 = 0xAA ∧ data.getD 1 0 = 0x04) :
    ∃ smp, (poll st data now).2 = some smp ∧
      smp.temperature =
        (if 0 < leBytes ((data.drop 15).take 2) ∧ leBytes ((data.drop 15).take 2) < 1000
         then some ((leBytes ((data.drop 15).take 2) : ℚ) / 10) else none) := by
  rw [poll, if_pos hv]
  exact ⟨_, rfl, rfl⟩

/-- Witness for C6 on a concrete valid packet with raw temperature 0. -/
theorem C6_temperature_decode_witness :
    ∃ smp, (poll ⟨0, 0⟩ (0xAA :: 0x04 :: List.replicate 62 0) 0).2 = some smp ∧
      smp.temperature =
        (if 0 < leBytes (((0xAA :: 0x04 :: List.replicate 62 0).drop 15).take 2) ∧
            leBytes (((0xAA :: 0x04 :: List.replicate 62 0).drop 15).take 2) < 1000
         then some ((leBytes (((0xAA :: 0x04 :: List.replicate 62 0).drop 15).take 2) : ℚ) / 10)
         else none) :=
  C6_temperature_decode ⟨0, 0⟩ (0xAA :: 0x04 :: List.replicate 62 0) 0 (by simp) (by simp)

/-- C9: for every accepted packet, the decoded voltage and current are the
unsigned little-endian 32-bit fields divided by the fixed scale factor
100000, hence non-negative, and the decoded power equals their product
exactly. -/
theorem C9_power_product (st : SessionState) (data : List ℕ) (now : ℚ)
    (_hlen : data.length = 64)
    (hv : data.getD 0 0 = 0xAA ∧ data.getD 1 0 = 0x04) :
    ∃ smp, (poll st data now).2 = some smp ∧
      smp.voltage = (leBytes ((data.drop 2).take 4) : ℚ) / 100000 ∧
      smp.current = (leBytes ((data.drop 6).take 4) : ℚ) / 100000 ∧
      0 ≤ smp.voltage ∧ 0 ≤ smp.current ∧
      smp.power = smp.voltage * smp.current := by
  rw [poll, if_pos hv]
  refine ⟨_, rfl, rfl, rfl, ?_, ?_, rfl⟩
  · positivity
  · positivity

/-- Helper: `List.find?` over `List.range n` returns the least index
satisfying the predicate. -/
theorem find?_range_least {p : ℕ → Bool} {n k : ℕ}
    (h : (List.range n).find? p = some k) :
    p k = true ∧ k < n ∧ ∀ j, j < k → p j = false := by
  induction n with
  | zero => simp [List.range_zero] at h
  | succ m ih =>
    rw [List.range_succ, List.find?_append] at h
    cases hfm : (List.range m).find? p with
    | some a =>
      rw [hfm] at h
      have ha : a = k := by simpa using h
      subst ha
      obtain ⟨h1, h2, h3⟩ := ih hfm
      exact ⟨h1, by omega, h3⟩
    | none =>
      rw [hfm, Option.none_or] at h
      have hall := List.find?_eq_none.mp hfm
      rw [List.find?_cons] at h
      cases hpm : p m with
      | true =>
        rw [hpm] at h
        have hk : m = k := by simpa using h
        subst hk
        refine ⟨hpm, by omega, fun j hj => ?_⟩
        have := hall j (List.mem_range.mpr hj)
        simpa using this
      | false =>
        rw [hpm] at h
        simp at h

/-- Helper: indexing with a default value is taking the head of the
corresponding suffix. -/
theorem getD_eq_drop_headD {α : Type} (l : List α) (k : ℕ) (d : α) :
    l.getD k d = (l.drop k).headD d := by
  rw [List.getD_eq_getElem?_getD, List.headD_eq_head?_getD, List.head?_drop]

/-- C7: the report generator computes its summary statistics over the rows
from the first index where `voltage > 0.1` and `current > 0.01` through the
last row, ignoring all earlier rows (start values are heads of the suffix,
averages and extremes range over the suffix only); when no row satisfies both
thresholds, the run fails and no report is produced. -/
theorem C7_report_start_window (cols : Columns) :
    (makeReport cols = none ↔
      ∀ i, i < cols.voltage.length →
        ¬ ((1 : ℚ)/10 < cols.voltage.getD i 0 ∧ (1 : ℚ)/100 < cols.current.getD i 0)) ∧
    (∀ k, startIndex cols = some k →
      k < cols.voltage.length ∧
      ((1 : ℚ)/10 < cols.voltage.getD k 0 ∧ (1 : ℚ)/100 < cols.current.getD k 0) ∧
      (∀ j, j < k →
        ¬ ((1 : ℚ)/10 < cols.voltage.getD j 0 ∧ (1 : ℚ)/100 < cols.current.getD j 0)) ∧
      makeReport cols = some
        { start_voltage := (cols.voltage.drop k).headD 0,
          end_voltage := cols.voltage.getLastD 0,
          start_current := (cols.current.drop k).headD 0,
          end_current := cols.current.getLastD 0,
          start_temp := (cols.temperature.drop k).headD none,
          end_temp := cols.temperature.getLastD none,
          total_duration := cols.timestamp.getLastD 0 - (cols.timestamp.drop k).headD 0,
          total_mAh := cols.mAh.getLastD 0 - (cols.mAh.drop k).headD 0,
          avg_voltage := qMean (cols.voltage.drop k),
          avg_current := qMean (cols.current.drop k),
          avg_power := qMean (cols.power.drop k),
          avg_temp := nanMean (cols.temperature.drop k),
          max_current := qMax (cols.current.drop k),
          min_current := qMin (cols.current.drop k),
          max_power := qMax (cols.power.drop k),
          min_power := qMin (cols.power.drop k) }) := by
  constructor
  · cases hSI : startIndex cols with
    | none =>
      have hnone : makeReport cols = none := by simp [makeReport, hSI]
      rw [startIndex] at hSI
      have hall := List.find?_eq_none.mp hSI
      simp only [hnone, true_iff]
      intro i hi hcontra
      have := hall i (List.mem_range.mpr hi)
      simp only [Bool.and_eq_true, decide_eq_true_eq, not_and] at this
      exact absurd hcontra (by tauto)
    | some k =>
      have hsome : makeReport cols ≠ none := by simp [makeReport, hSI]
      obtain ⟨hpk, hklen, _⟩ := find?_range_least hSI
      simp only [Bool.and_eq_true, decide_eq_true_eq] at hpk
      constructor
      · intro habs; exact absurd habs hsome
      · intro hno; exact absurd hpk (hno k hklen)
  · intro k hk
    obtain ⟨hpk, hklen, hleast⟩ := find?_range_least hk
    simp only [Bool.and_eq_true, decide_eq_true_eq] at hpk
    refine ⟨hklen, hpk, fun j hj hcontra => ?_, ?_⟩
    · have := hleast j hj
      simp only [Bool.and_eq_false_iff, decide_eq_false_iff_not] at this
      tauto
    · simp only [makeReport, hk]
      rw [getD_eq_drop_headD cols.voltage k 0, getD_eq_drop_headD cols.current k 0,
        getD_eq_drop_headD cols.temperature k none, getD_eq_drop_headD cols.timestamp k 0,
        getD_eq_drop_headD cols.mAh k 0]

/-- Concrete columns used by the C7 witness: the thresholds are first
crossed at row 1. -/
def colsEx : Columns :=
  { timestamp := [0, 1, 2],
    voltage := [0, 1, 1],
    current := [0, 1/2, 1/2],
    power := [0, 1/2, 1/2],
    temperature := [some 20, some 21, some 22],
    mAh := [0, 1, 2] }

/-- Witness for C7 on `colsEx`, start index 1. -/
theorem C7_report_start_window_witness :
    makeReport colsEx = some
      { start_voltage := (colsEx.voltage.drop 1).headD 0,
        end_voltage := colsEx.voltage.getLastD 0,
        start_current := (colsEx.current.drop 1).headD 0,
        end_current := colsEx.current.getLastD 0,
        start_temp := (colsEx.temperature.drop 1).headD none,
        end_temp := colsEx.temperature.getLastD none,
        total_duration := colsEx.timestamp.getLastD 0 - (colsEx.timestamp.drop 1).headD 0,
        total_mAh := colsEx.mAh.getLastD 0 - (colsEx.mAh.drop 1).headD 0,
        avg_voltage := qMean (colsEx.voltage.drop 1),
        avg_current := qMean (colsEx.current.drop 1),
        avg_power := qMean (colsEx.power.drop 1),
        avg_temp := nanMean (colsEx.temperature.drop 1),
        max_current := qMax (colsEx.current.drop 1),
        min_current := qMin (colsEx.current.drop 1),
        max_power := qMax (colsEx.power.drop 1),
        min_power := qMin (colsEx.power.drop 1) } :=
  (((C7_report_start_window colsEx).2 1
    (by norm_num [startIndex, colsEx, List.range_succ, List.find?])).2.2).2

/-- Witness for C9 on a concrete valid all-zero-payload packet. -/
theorem C9_power_product_witness :
    ∃ smp, (poll ⟨0, 0⟩ (0xAA :: 0x04 :: List.replicate 62 0) 0).2 = some smp ∧
      smp.voltage = (leBytes (((0xAA :: 0x04 :: List.replicate 62 0).drop 2).take 4) : ℚ) / 100000 ∧
      smp.current = (leBytes (((0xAA :: 0x04 :: List.replicate 62 0).drop 6).take 4) : ℚ) / 100000 ∧
      0 ≤ smp.voltage ∧ 0 ≤ smp.current ∧
      smp.power = smp.voltage * smp.current :=
  C9_power_product ⟨0, 0⟩ (0xAA :: 0x04 :: List.replicate 62 0) 0 (by simp) (by simp)

/-- C8: a CSV file written by the logger with `N` accepted samples, re-read
by the report generator, yields the eight header-named columns, each a list
of length `N` whose entry at row `i` is exactly the value written in field
`j` of row `i`. -/
theorem C8_roundtrip (samples : List (ℚ × Sample)) :
    (readColumns (writeLog samples)).map Prod.fst = csvHeader ∧
    ∀ j, j < csvHeader.length →
      ((readColumns (writeLog samples)).getD j ("", [])).2.length = samples.length ∧
      ∀ i, i < samples.length →
        ((readColumns (writeLog samples)).getD j ("", [])).2.getD i none
          = (sampleRow (samples.getD i default).1 (samples.getD i default).2).getD j none := by
  constructor
  · rfl
  · intro j hj
    have hcol : (readColumns (writeLog samples)).getD j ("", [])
        = (csvHeader.getD j "", readColumn (writeLog samples) j) := by
      have hj2 : j < (writeLog samples).header.length := hj
      rw [readColumns, List.getD_eq_getElem?_getD, List.getElem?_map,
        @List.getElem?_range j (writeLog samples).header.length hj2,
        Option.map_some', Option.getD_some]
      rfl
    rw [hcol]
    constructor
    · simp [readColumn, writeLog]
    · intro i hi
      have hrow : (writeLog samples).rows[i]?
          = some (sampleRow (samples.getD i default).1 (samples.getD i default).2) := by
        show (samples.map (fun p => sampleRow p.1 p.2))[i]? = _
        rw [List.getElem?_map, List.getElem?_eq_getElem hi, Option.map_some',
          List.getD_eq_getElem samples default hi]
      rw [readColumn, List.getD_eq_getElem?_getD, List.getElem?_map, hrow,
        Option.map_some', Option.getD_some]

/-- Witness for C8: a one-sample log, column 4 (temperature), row 0. -/
theorem C8_roundtrip_witness :
    ((readColumns (writeLog [((1 : ℚ), (default : Sample))])).getD 4 ("", [])).2.getD 0 none
      = (sampleRow (([((1 : ℚ), (default : Sample))].getD 0 default).1)
          (([((1 : ℚ), (default : Sample))].getD 0 default).2)).getD 4 none :=
  ((C8_roundtrip [((1 : ℚ), (default : Sample))]).2 4 (by decide)).2 0 (by decide)

/-- Helper for C10: a float sum over a list holding a NaN cell is NaN. -/
theorem nanSum_of_mem_none {l : List (Option ℚ)} (h : (none : Option ℚ) ∈ l) :
    nanSum l = none := by
  induction l with
  | nil => simp at h
  | cons x xs ih =>
    rcases List.mem_cons.mp h with h1 | h2
    · rw [← h1, nanSum]
      rfl
    · cases x with
      | none => rw [nanSum]; rfl
      | some a => rw [nanSum, ih h2]; rfl

/-- Helper for C10: the mean over a list holding a NaN cell is NaN. -/
theorem nanMean_of_mem_none {l : List (Option ℚ)} (h : (none : Option ℚ) ∈ l) :
    nanMean l = none := by
  rw [nanMean, nanSum_of_mem_none h]
  split <;> rfl

/-- C10: if any row from the detected start index through the last row has a
NaN temperature, the report's average temperature is NaN; the reported
starting and ending temperatures are exactly the temperature cells of the
start-index row and the final row (hence NaN when those rows carry NaN);
no NaN row is skipped or filtered. -/
theorem C10_nan_propagation (cols : Columns) (k : ℕ)
    (hk : startIndex cols = some k)
    (hnan : ∃ j, k ≤ j ∧ j < cols.temperature.length ∧ cols.temperature.getD j none = none) :
    ∃ r, makeReport cols = some r ∧
      r.avg_temp = none ∧
      r.start_temp = cols.temperature.getD k none ∧
      r.end_temp = cols.temperature.getLastD none := by
  obtain ⟨j, hkj, hjl, hj⟩ := hnan
  have hmem : (none : Option ℚ) ∈ cols.temperature.drop k := by
    have h1 : cols.temperature[j]? = some (cols.temperature[j]) := List.getElem?_eq_getElem hjl
    have h2 : cols.temperature[j] = none := by
      rw [List.getD_eq_getElem?_getD, h1] at hj
      simpa using hj
    have h3 : (cols.temperature.drop k)[j - k]? = some none := by
      rw [List.getElem?_drop]
      have hjk : k + (j - k) = j := by omega
      rw [hjk, h1, h2]
    exact List.getElem?_mem h3
  simp only [makeReport, hk]
  exact ⟨_, rfl, nanMean_of_mem_none hmem, rfl, rfl⟩

/-- Concrete columns for the C10 witness: start index 0, NaN temperature in
row 1. -/
def colsNanEx : Columns :=
  { timestamp := [0, 1],
    voltage := [1, 1],
    current := [1, 1],
    power := [1, 1],
    temperature := [some 20, none],
    mAh := [0, 1] }

/-- Witness for C10 on `colsNanEx`. -/
theorem C10_nan_propagation_witness :
    ∃ r, makeReport colsNanEx = some r ∧
      r.avg_temp = none ∧
      r.start_temp = colsNanEx.temperature.getD 0 none ∧
      r.end_temp = colsNanEx.temperature.getLastD none :=
  C10_nan_propagation colsNanEx 0
    (by norm_num [startIndex, colsNanEx, List.range_succ, List.find?])
    ⟨1, by omega, by norm_num [colsNanEx], by simp [colsNanEx]⟩

end USBMeter
